import Mathlib

/-! Verification of the CodeCombiner application core (src/Codehelp.py):
text splitting and identifier handling, paste reconciliation, the
combination algorithm, the per-file bounded version history, and the
file-set operations.  File text is modelled as a list of characters with
the line feed character as the only line terminator (the program reads
and writes files in text mode, which normalises line endings to LF);
filesystem paths are modelled as lists of name components. -/

namespace CodeCombiner

/-- File or clipboard text, as a list of characters. -/
abbrev Text := List Char

/-- A filesystem path, as its list of name components (pathlib paths in
the source). -/
abbrev PyPath := List String

/-- Whitespace recognised by the strip calls in the source (the ASCII
whitespace characters recognised by the Python str.strip method). -/
def isPySpace (c : Char) : Bool :=
  c == ' ' || c == '\t' || c == '\n' || c == '\r' || c == '\x0b' || c == '\x0c'

/-- Model of str.strip: remove leading and trailing whitespace. -/
def pyStrip (s : Text) : Text :=
  ((s.dropWhile isPySpace).reverse.dropWhile isPySpace).reverse

/-- Model of str.splitlines with LF line terminators: the list of lines,
without terminators; a trailing terminator produces no extra line, and
the empty string has no lines. -/
def pySplitlines : Text → List Text
  | [] => []
  | c :: s =>
    if c = '\n' then [] :: pySplitlines s
    else
      match pySplitlines s with
      | [] => [[c]]
      | l :: ls => (c :: l) :: ls

/-- The first line of a text: its characters up to the first LF.  For a
non-empty text this is the head of pySplitlines, and the strip of the
first element of readlines in the source. -/
def firstLine : Text → Text
  | [] => []
  | c :: s => if c = '\n' then [] else c :: firstLine s

/-- Model of joining with the LF separator (the join call on the line
list in the paste reconciliation). -/
def joinNl : List Text → Text
  | [] => []
  | [l] => l
  | l :: ls => l ++ '\n' :: joinNl ls

/-- A text with a single trailing LF (when present) removed; joining the
split lines of a text with LF yields exactly this. -/
def stripLastNl (s : Text) : Text :=
  if s.getLast? = some '\n' then s.dropLast else s

/-- The final name component of a path (the name attribute of a pathlib
path). -/
def pathName (p : PyPath) : String := p.reverse.headD ""

/-- The parent directory of a path (the parent attribute of a pathlib
path). -/
def parentDir (p : PyPath) : PyPath := p.dropLast

/-- Whether the first path is a leading component sequence of the
second; this is the success condition of the relative_to call in the
source. -/
def startsWithPath : PyPath → PyPath → Bool
  | [], _ => true
  | _ :: _, [] => false
  | r :: rs, p :: ps => r == p && startsWithPath rs ps

/-- Model of Path.relative_to: the remaining components when the root is
a leading component sequence of the path, and failure otherwise. -/
def relativeTo (fp root : PyPath) : Option PyPath :=
  if startsWithPath root fp then some (fp.drop root.length) else none

/-- Slash-joined components (the as_posix rendering of a relative
path with at least one component). -/
def joinSlash : List String → String
  | [] => ""
  | [s] => s
  | s :: ss => s ++ "/" ++ joinSlash ss

/-- The as_posix rendering of a relative path: a dot for the empty
relative path, otherwise the components joined with slashes. -/
def asPosixRel (segs : List String) : String :=
  if segs = [] then "." else joinSlash segs

/-- The as_posix rendering of an absolute path. -/
def absAsPosix (p : PyPath) : String := "/" ++ joinSlash p

/-- The relative-or-absolute display rule used throughout the source:
the path relative to the root when the root contains it, otherwise the
absolute path. -/
def relativeOrAbsolute (fp root : PyPath) : String :=
  match relativeTo fp root with
  | some segs => asPosixRel segs
  | none => absAsPosix fp

/-- The single-form file identifier used by copy_file_code and
paste_file_code: a hash, a space, and the relative-or-absolute path. -/
def fileIdentifier (fp root : PyPath) : Text :=
  ("# " ++ relativeOrAbsolute fp root).toList

/-- The reconciliation decision of paste_file_code: given the expected
identifier, the clipboard text and the current disk content of the
target (none when the file does not exist), the content written, or
none when no write is performed (empty clipboard). -/
def contentToWrite (expected clip : Text) (existing : Option Text) : Option Text :=
  if clip = [] then none
  else
    match pySplitlines clip with
    | [] => none
    | first :: _ =>
      if pyStrip first = expected then some clip
      else
        match existing with
        | some ex =>
          match pySplitlines ex with
          | [] => some (expected ++ '\n' :: clip)
          | e0 :: _ =>
            if pyStrip e0 = expected
            then some (pyStrip e0 ++ '\n' :: joinNl (pySplitlines clip))
            else some (expected ++ '\n' :: clip)
        | none => some (expected ++ '\n' :: clip)

/-- The content written by paste_file_code for a target file and root,
with the expected identifier computed exactly as in the source. -/
def reconcilePaste (fp root : PyPath) (clip : Text) (existing : Option Text) : Option Text :=
  contentToWrite (fileIdentifier fp root) clip existing

/-- Formulated from the spec wording of the paste case analysis, for
comparison with contentToWrite: write the clipboard verbatim when its
stripped first line equals the expected identifier; else, when the
target exists, is non-empty, and its stripped first line equals the
expected identifier, write the expected identifier, a newline, and the
clipboard lines joined with newline; else write the expected identifier,
a newline, and the raw clipboard text. -/
def reconcileSpec (expected clip : Text) (existing : Option Text) : Text :=
  if pyStrip (firstLine clip) = expected then clip
  else
    match existing with
    | some ex =>
      if ex ≠ [] ∧ pyStrip (firstLine ex) = expected then
        expected ++ '\n' :: joinNl (pySplitlines clip)
      else expected ++ '\n' :: clip
    | none => expected ++ '\n' :: clip

/-- The clipboard text produced by copy_file_code from an identifier and
the file content: an identifier line alone for an empty file, the
content verbatim when its stripped first line already equals the
identifier, and the identifier line prepended otherwise. -/
def copyClipboard (ident content : Text) : Text :=
  if content = [] then ident ++ ['\n']
  else if pyStrip (firstLine content) = ident then content
  else ident ++ '\n' :: content

/-- The clipboard text produced by copy_file_code for a file and root,
with the identifier computed exactly as in the source. -/
def copyFileCode (fp root : PyPath) (content : Text) : Text :=
  copyClipboard (fileIdentifier fp root) content

/-- The identifier used by combine_code: the bare filename when the
parent directory renders as empty, dot or the top-level sentinel, and
directory slash filename otherwise. -/
def combineIdentifier (fp root : PyPath) : Text :=
  let relDir :=
    match relativeTo (parentDir fp) root with
    | some segs => asPosixRel segs
    | none => absAsPosix (parentDir fp)
  if relDir = "" ∨ relDir = "." ∨ relDir = "(top-level)" then
    ("# " ++ pathName fp).toList
  else
    ("# " ++ (relDir ++ "/" ++ pathName fp)).toList

/-- The header insertion of combine_code: prepend the identifier line
unless the stripped first line already equals the stripped identifier;
an empty file becomes the identifier line alone. -/
def ensureIdent (ident content : Text) : Text :=
  if content = [] then ident ++ ['\n']
  else if pyStrip (firstLine content) = pyStrip ident then content
  else ident ++ '\n' :: content

/-- An entry of the combine input: a path, its checked flag, and its
disk content (none when the file is missing; undecodable files are
likewise skipped by the source and are not modelled separately). -/
structure CEntry where
  path : PyPath
  checked : Bool
  disk : Option Text

/-- Model of combine_code: fold over the checked entries in list order,
skipping missing files, appending the header-ensured content followed by
two LF characters for each remaining entry. -/
def combineCode (root : PyPath) (entries : List CEntry) : Text :=
  (entries.filter (fun e => e.checked)).foldl
    (fun acc e =>
      match e.disk with
      | none => acc
      | some content =>
        acc ++ ensureIdent (combineIdentifier e.path root) content ++ ('\n' :: '\n' :: []))
    []

/-- Model of the history push in save_current_version: append the
snapshot, then drop the oldest entry when the stack exceeds five. -/
def pushVersion (h : List Text) (c : Text) : List Text :=
  let h2 := h ++ [c]
  if 5 < h2.length then h2.drop 1 else h2

/-- Model of save_current_version: the snapshot read outcome is an
explicit parameter (the source performs a separate read of the file
here); on a failed read the function surfaces an error and returns with
the history unchanged, otherwise it pushes the read content. -/
def saveCurrentVersion (h : List Text) (snapRead : Option Text) : List Text :=
  match snapRead with
  | none => h
  | some c => pushVersion h c

/-- The in-memory state kept for one file path: its version-history
stack (most recent last, as in the source list) and its disk content
(none when the file does not exist). -/
structure FState where
  history : List Text
  disk : Option Text

/-- Model of paste_file_code as a state transition: reconcile, then save
the current version (with the given snapshot read outcome), then write.
The second component is the content written, none when no write was
performed. -/
def pasteOp (expected clip : Text) (st : FState) (snapRead : Option Text) : FState × Option Text :=
  match contentToWrite expected clip st.disk with
  | none => (st, none)
  | some w => (⟨saveCurrentVersion st.history snapRead, some w⟩, some w)

/-- Model of copy_file_code as a state transition: on a successful read
the clipboard content is produced and the current version is saved; a
missing file fails the read and changes nothing.  The second component
is the clipboard text produced. -/
def copyOp (ident : Text) (st : FState) : FState × Option Text :=
  match st.disk with
  | none => (st, none)
  | some content =>
    (⟨saveCurrentVersion st.history (some content), st.disk⟩, some (copyClipboard ident content))

/-- Model of revert_file_code as a state transition: pop the most recent
snapshot, then attempt the disk write (its success is an explicit
parameter; writes are modelled as atomic).  The second component is the
content successfully restored, none when the history was empty or the
write failed. -/
def revertOp (st : FState) (writeOk : Bool) : FState × Option Text :=
  match st.history.getLast? with
  | none => (st, none)
  | some v =>
    if writeOk then (⟨st.history.dropLast, some v⟩, some v)
    else (⟨st.history.dropLast, st.disk⟩, none)

/-- Push a chronological list of snapshots onto an empty history. -/
def pushAll (cs : List Text) : List Text := cs.foldl pushVersion []

/-- Perform a number of successful reverts, recording each outcome. -/
def drainRevert : FState → Nat → List (Option Text)
  | _, 0 => []
  | st, n + 1 =>
    let r := revertOp st true
    r.2 :: drainRevert r.1 n

/-- The filename exclusion list of the source. -/
def excludedFilenames : List String := ["__init__.py", "Codehelp.py", "analysis_depend.py"]

/-- Model of the pathlib suffix attribute: the name from its last dot
on, when that dot is neither the first nor the last character of the
name. -/
def pySuffix (n : List Char) : List Char :=
  match n.reverse.findIdx? (fun c => c == '.') with
  | none => []
  | some j =>
    let i := n.length - 1 - j
    if 0 < i ∧ i < n.length - 1 then n.drop i else []

/-- The candidate filter shared by the upload paths: the lower-cased
suffix is the python extension and the filename is not excluded. -/
def isCandidate (fp : PyPath) : Bool :=
  ((pySuffix (pathName fp).toList).map Char.toLower == ".py".toList)
    && !(excludedFilenames.contains (pathName fp))

/-- The filter step of upload_files_replace and upload_files_add. -/
def filterCandidates (ps : List PyPath) : List PyPath := ps.filter isCandidate

/-- The dedup-by-filename loop shared by the upload paths: keep each
path whose filename has not been seen, recording seen filenames. -/
def dedupByName : List PyPath → List String → List PyPath
  | [], _ => []
  | p :: ps, seen =>
    if pathName p ∈ seen then dedupByName ps seen
    else p :: dedupByName ps (pathName p :: seen)

/-- Model of upload_files_replace: filter, then dedup by filename with
the first occurrence winning; the result replaces the list. -/
def uploadReplace (ps : List PyPath) : List PyPath :=
  dedupByName (filterCandidates ps) []

/-- Model of upload_files_add (and of the identical loop in
add_selected_files_from_tab): append each filtered path whose filename
collides with neither the current list nor an earlier appended path. -/
def uploadAdd (cur ps : List PyPath) : List PyPath :=
  cur ++ dedupByName (filterCandidates ps) (cur.map pathName)

/-- Model of move_checked_files_to_head on the ordered list of entries
paired with their checked flags: checked entries first, then unchecked,
each in original order; when nothing is checked the function reports a
no-op and leaves the list unchanged. -/
def moveCheckedToHead (l : List (PyPath × Bool)) : List (PyPath × Bool) :=
  let ch := l.filter (fun e => e.2)
  if ch = [] then l else ch ++ l.filter (fun e => !e.2)

/-! Basic lemmas about the text primitives. -/

theorem pySplitlines_cons_ne_nil (c : Char) (t : Text) : pySplitlines (c :: t) ≠ [] := by
  by_cases hc : c = '\n'
  · simp [pySplitlines, hc]
  · simp only [pySplitlines, if_neg hc]
    cases pySplitlines t <;> simp

theorem pySplitlines_head (s : Text) (h : s ≠ []) :
    ∃ ls, pySplitlines s = firstLine s :: ls := by
  induction s with
  | nil => exact absurd rfl h
  | cons c t ih =>
    by_cases hc : c = '\n'
    · subst hc
      exact ⟨pySplitlines t, by simp [pySplitlines, firstLine]⟩
    · by_cases ht : t = []
      · subst ht
        exact ⟨[], by simp [pySplitlines, firstLine, hc]⟩
      · obtain ⟨ls, hl⟩ := ih ht
        refine ⟨ls, ?_⟩
        simp only [pySplitlines, if_neg hc, hl, firstLine]

theorem pySplitlines_cons_nl (s : Text) : pySplitlines ('\n' :: s) = [] :: pySplitlines s := by
  simp [pySplitlines]

theorem pySplitlines_cons_of_ne (c : Char) (s : Text) (hc : c ≠ '\n') :
    pySplitlines (c :: s) = match pySplitlines s with
      | [] => [[c]]
      | l :: ls => (c :: l) :: ls := by
  simp [pySplitlines, hc]

theorem pySplitlines_append (l rest : Text) (h : '\n' ∉ l) :
    pySplitlines (l ++ '\n' :: rest) = l :: pySplitlines rest := by
  induction l with
  | nil => simp [pySplitlines_cons_nl]
  | cons c t ih =>
    have hc : c ≠ '\n' := by
      intro e
      exact h (by rw [e]; exact List.mem_cons_self _ _)
    have ht : '\n' ∉ t := fun m => h (List.mem_cons_of_mem _ m)
    rw [List.cons_append, pySplitlines_cons_of_ne c _ hc, ih ht]

theorem stripLastNl_cons (c d : Char) (u : Text) :
    stripLastNl (c :: d :: u) = c :: stripLastNl (d :: u) := by
  unfold stripLastNl
  rw [List.getLast?_cons_cons]
  by_cases h : (d :: u).getLast? = some '\n'
  · rw [if_pos h, if_pos h]
    rfl
  · rw [if_neg h, if_neg h]

theorem joinNl_pySplitlines (s : Text) : joinNl (pySplitlines s) = stripLastNl s := by
  induction s with
  | nil => rfl
  | cons c t ih =>
    by_cases hc : c = '\n'
    · subst hc
      cases t with
      | nil => simp [pySplitlines, joinNl, stripLastNl]
      | cons d u =>
        obtain ⟨l, ls, he⟩ : ∃ l ls, pySplitlines (d :: u) = l :: ls := by
          cases hps : pySplitlines (d :: u) with
          | nil => exact absurd hps (pySplitlines_cons_ne_nil d u)
          | cons l ls => exact ⟨l, ls, rfl⟩
        rw [pySplitlines_cons_nl, he, stripLastNl_cons]
        rw [he] at ih
        rw [← ih]
        simp [joinNl]
    · cases t with
      | nil => simp [pySplitlines, joinNl, stripLastNl, hc]
      | cons d u =>
        obtain ⟨l, ls, he⟩ : ∃ l ls, pySplitlines (d :: u) = l :: ls := by
          cases hps : pySplitlines (d :: u) with
          | nil => exact absurd hps (pySplitlines_cons_ne_nil d u)
          | cons l ls => exact ⟨l, ls, rfl⟩
        rw [pySplitlines_cons_of_ne c _ hc, he, stripLastNl_cons]
        rw [he] at ih
        rw [← ih]
        cases ls with
        | nil => simp [joinNl]
        | cons l2 ls2 => simp [joinNl]

/-! Equivalence of the paste reconciliation with the case analysis as
the spec words it. -/

theorem contentToWrite_eq_spec (expected clip : Text) (existing : Option Text)
    (h : clip ≠ []) :
    contentToWrite expected clip existing = some (reconcileSpec expected clip existing) := by
  obtain ⟨ls, hsp⟩ := pySplitlines_head clip h
  unfold contentToWrite reconcileSpec
  rw [if_neg h]
  simp only [hsp]
  by_cases h1 : pyStrip (firstLine clip) = expected
  · rw [if_pos h1, if_pos h1]
  · rw [if_neg h1, if_neg h1]
    cases existing with
    | none => rfl
    | some ex =>
      by_cases hex : ex = []
      · subst hex
        simp only [show pySplitlines ([] : Text) = [] from rfl]
        rw [if_neg (by simp)]
      · obtain ⟨ls2, hsp2⟩ := pySplitlines_head ex hex
        simp only [hsp2]
        by_cases h2 : pyStrip (firstLine ex) = expected
        · rw [if_pos h2, if_pos ⟨hex, h2⟩, h2]
        · rw [if_neg h2, if_neg (fun hh => h2 hh.2)]

/-- C1: for every non-empty clipboard text pasted to a target file whose
expected identifier is the single-form root-relative identifier, the
content written is: the clipboard verbatim when its stripped first line
equals the expected identifier; else the expected identifier, a newline,
and the clipboard lines joined with newline, when the target exists and
its current stripped first line equals the expected identifier; else the
expected identifier, a newline, and the raw clipboard text. -/
theorem c1_paste_case_analysis (fp root : PyPath) (clip : Text) (existing : Option Text)
    (h : clip ≠ []) :
    reconcilePaste fp root clip existing
      = some (reconcileSpec (fileIdentifier fp root) clip existing) :=
  contentToWrite_eq_spec _ _ _ h

theorem c1_paste_case_analysis_witness :
    ("print(3)\n".toList ≠ ([] : Text)) ∧
    reconcilePaste ["h", "foo.py"] ["h"] "print(3)\n".toList (some ("# foo.py\nx\n".toList))
      = some (reconcileSpec (fileIdentifier ["h", "foo.py"] ["h"]) "print(3)\n".toList
          (some ("# foo.py\nx\n".toList))) :=
  ⟨by decide, c1_paste_case_analysis _ _ _ _ (by decide)⟩

/-! Path lemmas used by the combine scenario. -/

theorem pathName_concat (r : PyPath) (n : String) : pathName (r ++ [n]) = n := by
  simp [pathName]

theorem startsWithPath_append (r xs : PyPath) : startsWithPath r (r ++ xs) = true := by
  induction r with
  | nil => rfl
  | cons a rs ih => simp [startsWithPath, ih]

theorem relativeTo_append (r xs : PyPath) : relativeTo (r ++ xs) r = some xs := by
  simp [relativeTo, startsWithPath_append, List.drop_left]

theorem combineIdentifier_top (r : PyPath) (n : String) :
    combineIdentifier (r ++ [n]) r = ("# " ++ n).toList := by
  have h1 : parentDir (r ++ [n]) = r := by simp [parentDir]
  have h2 : relativeTo r r = some [] := by simpa using relativeTo_append r []
  simp [combineIdentifier, h1, h2, asPosixRel, pathName_concat]

theorem combineIdentifier_sub (r : PyPath) (d n : String)
    (h1 : d ≠ "") (h2 : d ≠ ".") (h3 : d ≠ "(top-level)") :
    combineIdentifier (r ++ [d, n]) r = ("# " ++ (d ++ "/" ++ n)).toList := by
  have ha : r ++ [d, n] = (r ++ [d]) ++ [n] := by simp
  have hp : parentDir (r ++ [d, n]) = r ++ [d] := by
    rw [ha]; simp [parentDir]
  have hr : relativeTo (r ++ [d]) r = some [d] := relativeTo_append r [d]
  have hn : pathName (r ++ [d, n]) = n := by
    rw [ha]; exact pathName_concat _ n
  simp [combineIdentifier, hp, hr, hn, asPosixRel, joinSlash, h1, h2, h3]

/-- C2: combining a file set whose checked entries, in list order, are a
file foo.py directly under the root with content print(1) plus newline
and a file sub/bar.py with content print(2) plus newline returns exactly
the string consisting of each file prefixed with its identifier (bare
filename under the root, directory slash filename otherwise) and
followed by the two-newline separator. -/
theorem c2_combine_two_files (r : PyPath) :
    combineCode r
      [⟨r ++ ["foo.py"], true, some ("print(1)\n".toList)⟩,
       ⟨r ++ ["sub", "bar.py"], true, some ("print(2)\n".toList)⟩]
    = "# foo.py\nprint(1)\n\n\n# sub/bar.py\nprint(2)\n\n\n".toList := by
  have e1 : combineIdentifier (r ++ ["foo.py"]) r = ("# " ++ "foo.py").toList :=
    combineIdentifier_top r "foo.py"
  have e2 : combineIdentifier (r ++ ["sub", "bar.py"]) r
      = ("# " ++ ("sub" ++ "/" ++ "bar.py")).toList :=
    combineIdentifier_sub r "sub" "bar.py" (by decide) (by decide) (by decide)
  simp only [combineCode, List.filter, List.foldl, e1, e2]
  decide

/-! The copy and paste round trip. -/

theorem contentToWrite_of_head_match (expected clip : Text) (existing : Option Text)
    (first : Text) (rest : List Text)
    (hne : clip ≠ []) (hsp : pySplitlines clip = first :: rest)
    (hmatch : pyStrip first = expected) :
    contentToWrite expected clip existing = some clip := by
  unfold contentToWrite
  rw [if_neg hne]
  simp only [hsp]
  rw [if_pos hmatch]

theorem paste_copyClipboard (ident content : Text) (existing : Option Text)
    (h1 : '\n' ∉ ident) (h2 : pyStrip ident = ident) :
    contentToWrite ident (copyClipboard ident content) existing
      = some (copyClipboard ident content) := by
  unfold copyClipboard
  by_cases hc : content = []
  · rw [if_pos hc]
    refine contentToWrite_of_head_match _ _ _ ident [] ?_ ?_ h2
    · simp
    · simpa using pySplitlines_append ident [] h1
  · rw [if_neg hc]
    by_cases hm : pyStrip (firstLine content) = ident
    · rw [if_pos hm]
      obtain ⟨ls, hsp⟩ := pySplitlines_head content hc
      exact contentToWrite_of_head_match _ _ _ (firstLine content) ls hc hsp hm
    · rw [if_neg hm]
      refine contentToWrite_of_head_match _ _ _ ident (pySplitlines content) ?_ ?_ h2
      · simp
      · exact pySplitlines_append ident content h1

theorem c3_round_trip_counterexample :
    reconcilePaste ["h", "a\nb.py"] ["h"]
        (copyFileCode ["h", "a\nb.py"] ["h"] []) (some ([] : Text))
      ≠ some (copyFileCode ["h", "a\nb.py"] ["h"] []) := by
  decide

/-- C3 (amended): for every file and root whose computed identifier line
contains no line feed and is unchanged by whitespace stripping, pasting
the unmodified output of the single-file copy back to the same file
(with the disk content unchanged since the copy) writes content
identical to the copied output. -/
theorem c3_round_trip_amended (fp root : PyPath) (content : Text)
    (h1 : '\n' ∉ fileIdentifier fp root)
    (h2 : pyStrip (fileIdentifier fp root) = fileIdentifier fp root) :
    reconcilePaste fp root (copyFileCode fp root content) (some content)
      = some (copyFileCode fp root content) :=
  paste_copyClipboard (fileIdentifier fp root) content (some content) h1 h2

theorem c3_round_trip_amended_witness :
    ('\n' ∉ fileIdentifier ["h", "f.py"] ["h"]) ∧
    pyStrip (fileIdentifier ["h", "f.py"] ["h"]) = fileIdentifier ["h", "f.py"] ["h"] ∧
    reconcilePaste ["h", "f.py"] ["h"] (copyFileCode ["h", "f.py"] ["h"] ("x\n".toList))
        (some ("x\n".toList))
      = some (copyFileCode ["h", "f.py"] ["h"] ("x\n".toList)) :=
  ⟨by decide, by decide, c3_round_trip_amended _ _ _ (by decide) (by decide)⟩

/-! Effect of a failed snapshot read on the paste operation. -/

theorem c4_snapshot_failure_counterexample :
    (pasteOp ("# f.py".toList) ("new\n".toList) ⟨[], some ("old\n".toList)⟩ none).2
        ≠ none ∧
    (pasteOp ("# f.py".toList) ("new\n".toList) ⟨[], some ("old\n".toList)⟩ none).1.disk
        ≠ some ("old\n".toList) := by
  decide

/-- C4 (amended): when the snapshot read fails, no snapshot is pushed
(the history is unchanged) and the error is surfaced, but the paste
still proceeds: the reconciled content is written to the target file,
which is therefore modified without a backup snapshot. -/
theorem c4_snapshot_failure_amended (expected clip : Text) (st : FState) (h : clip ≠ []) :
    (pasteOp expected clip st none).1.history = st.history ∧
    (pasteOp expected clip st none).2 = contentToWrite expected clip st.disk ∧
    (pasteOp expected clip st none).2 ≠ none ∧
    (pasteOp expected clip st none).1.disk = contentToWrite expected clip st.disk := by
  obtain ⟨w, hw⟩ : ∃ w, contentToWrite expected clip st.disk = some w :=
    ⟨_, contentToWrite_eq_spec expected clip st.disk h⟩
  unfold pasteOp saveCurrentVersion
  rw [hw]
  simp

theorem c4_snapshot_failure_amended_witness :
    ("new\n".toList ≠ ([] : Text)) ∧
    (pasteOp ("# f.py".toList) ("new\n".toList) ⟨[], some ("old\n".toList)⟩ none).1.history
      = ([] : List Text) :=
  ⟨by decide,
    (c4_snapshot_failure_amended ("# f.py".toList) ("new\n".toList)
      ⟨[], some ("old\n".toList)⟩ (by decide)).1⟩

/-! Which operations push version-history snapshots. -/

theorem c5_copy_pushes_counterexample :
    (copyOp ("# f.py".toList) ⟨[], some ("x\n".toList)⟩).1.history = ["x\n".toList] ∧
    (copyOp ("# f.py".toList) ⟨[], some ("x\n".toList)⟩).1.history ≠ ([] : List Text) := by
  decide

/-- C5 (amended): a snapshot is pushed before every paste whose snapshot
read succeeds, and also by every successful single-file copy; revert
never pushes, it only pops the most recent snapshot (and combine is a
pure function of the file set and disk contents, touching no history). -/
theorem c5_push_discipline :
    (∀ ident st c, st.disk = some c →
      (copyOp ident st).1.history = pushVersion st.history c) ∧
    (∀ expected clip st c, clip ≠ [] →
      (pasteOp expected clip st (some c)).1.history = pushVersion st.history c) ∧
    (∀ st b, (revertOp st b).1.history = st.history.dropLast) := by
  refine ⟨?_, ?_, ?_⟩
  · intro ident st c hdisk
    unfold copyOp
    rw [hdisk]
    rfl
  · intro expected clip st c hclip
    obtain ⟨w, hw⟩ : ∃ w, contentToWrite expected clip st.disk = some w :=
      ⟨_, contentToWrite_eq_spec expected clip st.disk hclip⟩
    unfold pasteOp
    rw [hw]
    rfl
  · intro st b
    unfold revertOp
    cases hl : st.history.getLast? with
    | none =>
      have hnil : st.history = [] := List.getLast?_eq_none_iff.mp hl
      simp [hnil]
    | some v =>
      cases b <;> simp

theorem c5_push_discipline_witness :
    (copyOp ("# f.py".toList) ⟨[], some ("y\n".toList)⟩).1.history
        = pushVersion [] ("y\n".toList) ∧
    (pasteOp ("# f.py".toList) ("z\n".toList) ⟨[], some ("y\n".toList)⟩
        (some ("y\n".toList))).1.history = pushVersion [] ("y\n".toList) ∧
    (revertOp ⟨["a".toList], some ("b".toList)⟩ true).1.history = ["a".toList].dropLast :=
  ⟨c5_push_discipline.1 ("# f.py".toList) ⟨[], some ("y\n".toList)⟩ ("y\n".toList) rfl,
   c5_push_discipline.2.1 ("# f.py".toList) ("z\n".toList) ⟨[], some ("y\n".toList)⟩
     ("y\n".toList) (by decide),
   c5_push_discipline.2.2 ⟨["a".toList], some ("b".toList)⟩ true⟩

/-! The bounded version-history stack. -/

theorem foldl_pushVersion_eq (cs : List Text) : ∀ h : List Text, h.length + cs.length ≤ 5 →
    cs.foldl pushVersion h = h ++ cs := by
  induction cs with
  | nil => intro h _; simp
  | cons c cs ih =>
    intro h hlen
    have hlen' : h.length + (cs.length + 1) ≤ 5 := by simpa using hlen
    have hlen1 : (h ++ [c]).length = h.length + 1 := by simp
    have hp : pushVersion h c = h ++ [c] := by
      simp only [pushVersion]
      rw [if_neg (by omega)]
    rw [List.foldl_cons, hp, ih (h ++ [c]) (by omega)]
    simp

theorem pushAll_eq (cs : List Text) (h : cs.length ≤ 5) : pushAll cs = cs := by
  simpa using foldl_pushVersion_eq cs [] (by simpa using h)

theorem drainRevert_reverse (rs : List Text) : ∀ d : Option Text,
    drainRevert ⟨rs.reverse, d⟩ (rs.length + 1) = rs.map some ++ [none] := by
  induction rs with
  | nil => intro d; rfl
  | cons c rs ih =>
    intro d
    have hrev : (c :: rs).reverse = rs.reverse ++ [c] := by simp
    have hstep : revertOp ⟨rs.reverse ++ [c], d⟩ true = (⟨rs.reverse, some c⟩, some c) := by
      unfold revertOp
      rw [List.getLast?_concat]
      simp [List.dropLast_concat]
    rw [hrev]
    rw [show drainRevert ⟨rs.reverse ++ [c], d⟩ ((c :: rs).length + 1)
        = (revertOp ⟨rs.reverse ++ [c], d⟩ true).2
          :: drainRevert (revertOp ⟨rs.reverse ++ [c], d⟩ true).1 (rs.length + 1) from rfl]
    rw [hstep]
    dsimp only
    rw [ih (some c)]
    simp

/-- C6: the version history is a bounded LIFO stack with capacity five:
after at most five snapshots are pushed with no intervening revert, the
reverts return the snapshots most recent first and then signal absent,
and a push onto a full stack evicts the oldest entry so the stack never
holds more than five snapshots. -/
theorem c6_version_history (cs : List Text) (d : Option Text) (h : cs.length ≤ 5) :
    drainRevert ⟨pushAll cs, d⟩ (cs.length + 1) = cs.reverse.map some ++ [none] ∧
    (∀ h5 c, List.length h5 ≤ 5 → (pushVersion h5 c).length ≤ 5) ∧
    (∀ h5 c, List.length h5 = 5 → pushVersion h5 c = h5.drop 1 ++ [c]) := by
  refine ⟨?_, ?_, ?_⟩
  · rw [pushAll_eq cs h]
    have hd := drainRevert_reverse cs.reverse d
    simpa using hd
  · intro h5 c hle
    simp only [pushVersion]
    by_cases h6 : 5 < (h5 ++ [c]).length
    · rw [if_pos h6]
      have hlen1 : (h5 ++ [c]).length = h5.length + 1 := by simp
      simp only [List.length_drop]
      omega
    · rw [if_neg h6]
      omega
  · intro h5 c hlen
    cases h5 with
    | nil => simp at hlen
    | cons a t =>
      have hlen' : t.length + 1 = 5 := by simpa using hlen
      have h6 : 5 < ((a :: t) ++ [c]).length := by
        simp only [List.cons_append, List.length_cons, List.length_append]
        omega
      simp only [pushVersion]
      rw [if_pos h6]
      simp

theorem c6_version_history_witness :
    (["a".toList, "b".toList] : List Text).length ≤ 5 ∧
    drainRevert ⟨pushAll ["a".toList, "b".toList], none⟩
        ((["a".toList, "b".toList] : List Text).length + 1)
      = (["a".toList, "b".toList] : List Text).reverse.map some ++ [none] :=
  ⟨by decide, (c6_version_history ["a".toList, "b".toList] none (by decide)).1⟩

/-! The filename-dedup invariant of the upload paths. -/

theorem dedupByName_nodup_aux (ps : List PyPath) : ∀ seen : List String,
    ((dedupByName ps seen).map pathName).Nodup ∧
    ∀ n ∈ (dedupByName ps seen).map pathName, n ∉ seen := by
  induction ps with
  | nil => intro seen; exact ⟨List.nodup_nil, by simp [dedupByName]⟩
  | cons p ps ih =>
    intro seen
    by_cases hm : pathName p ∈ seen
    · rw [show dedupByName (p :: ps) seen = dedupByName ps seen from by
        simp [dedupByName, hm]]
      exact ih seen
    · rw [show dedupByName (p :: ps) seen = p :: dedupByName ps (pathName p :: seen) from by
        simp [dedupByName, hm]]
      obtain ⟨hnd, hni⟩ := ih (pathName p :: seen)
      constructor
      · rw [List.map_cons]
        refine List.nodup_cons.mpr ⟨?_, hnd⟩
        intro hmem
        exact (hni _ hmem) (List.mem_cons_self _ _)
      · intro n hn
        rw [List.map_cons] at hn
        rcases List.mem_cons.mp hn with h1 | h2
        · subst h1; exact hm
        · intro hns
          exact (hni n h2) (List.mem_cons_of_mem _ hns)

theorem dedupByName_mem (ps : List PyPath) : ∀ (seen : List String) (p : PyPath),
    p ∈ dedupByName ps seen → p ∈ ps ∧ pathName p ∉ seen := by
  induction ps with
  | nil => intro seen p hp; simp [dedupByName] at hp
  | cons q ps ih =>
    intro seen p hp
    by_cases hm : pathName q ∈ seen
    · rw [show dedupByName (q :: ps) seen = dedupByName ps seen from by
        simp [dedupByName, hm]] at hp
      obtain ⟨h1, h2⟩ := ih seen p hp
      exact ⟨List.mem_cons_of_mem _ h1, h2⟩
    · rw [show dedupByName (q :: ps) seen = q :: dedupByName ps (pathName q :: seen) from by
        simp [dedupByName, hm]] at hp
      rcases List.mem_cons.mp hp with h1 | h2
      · subst h1; exact ⟨List.mem_cons_self _ _, hm⟩
      · obtain ⟨h1, h2'⟩ := ih _ p h2
        exact ⟨List.mem_cons_of_mem _ h1, fun hs => h2' (List.mem_cons_of_mem _ hs)⟩

theorem dedupByName_find (ps : List PyPath) : ∀ (seen : List String) (n : String), n ∉ seen →
    (dedupByName ps seen).find? (fun q => pathName q == n)
      = ps.find? (fun q => pathName q == n) := by
  induction ps with
  | nil => intro seen n _; rfl
  | cons p ps ih =>
    intro seen n hn
    by_cases hm : pathName p ∈ seen
    · have hne : pathName p ≠ n := fun e => hn (e ▸ hm)
      have hpf : ¬ ((pathName p == n) = true) := by simp [hne]
      rw [show dedupByName (p :: ps) seen = dedupByName ps seen from by
        simp [dedupByName, hm]]
      rw [@List.find?_cons_of_neg _ (fun q => pathName q == n) p ps hpf, ih seen n hn]
    · by_cases he : pathName p = n
      · have hpt : (pathName p == n) = true := by simp [he]
        rw [show dedupByName (p :: ps) seen = p :: dedupByName ps (pathName p :: seen) from by
          simp [dedupByName, hm]]
        rw [@List.find?_cons_of_pos _ (fun q => pathName q == n) p
          (dedupByName ps (pathName p :: seen)) hpt,
          @List.find?_cons_of_pos _ (fun q => pathName q == n) p ps hpt]
      · have hpf : ¬ ((pathName p == n) = true) := by simp [he]
        rw [show dedupByName (p :: ps) seen = p :: dedupByName ps (pathName p :: seen) from by
          simp [dedupByName, hm]]
        rw [@List.find?_cons_of_neg _ (fun q => pathName q == n) p
          (dedupByName ps (pathName p :: seen)) hpf,
          @List.find?_cons_of_neg _ (fun q => pathName q == n) p ps hpf]
        refine ih (pathName p :: seen) n ?_
        intro hmem
        rcases List.mem_cons.mp hmem with h1 | h2
        · exact he h1.symm
        · exact hn h2

/-- C7: after replace-all and after add, the ordered list contains no
two entries with the same base filename; on replace-all the first
occurrence in (filtered) input order wins, and on add a path whose
filename collides with an existing entry is skipped while the existing
entries are left unmodified. -/
theorem c7_filename_dedup (cur ps : List PyPath) (hcur : (cur.map pathName).Nodup) :
    ((uploadReplace ps).map pathName).Nodup ∧
    ((uploadAdd cur ps).map pathName).Nodup ∧
    (∀ n : String, (uploadReplace ps).find? (fun q => pathName q == n)
        = (filterCandidates ps).find? (fun q => pathName q == n)) ∧
    (uploadAdd cur ps).take cur.length = cur ∧
    (∀ p, p ∈ uploadAdd cur ps → p ∈ cur ∨
      (p ∈ filterCandidates ps ∧ pathName p ∉ cur.map pathName)) := by
  refine ⟨?_, ?_, ?_, ?_, ?_⟩
  · exact (dedupByName_nodup_aux (filterCandidates ps) []).1
  · unfold uploadAdd
    rw [List.map_append]
    refine List.nodup_append.mpr ⟨hcur, (dedupByName_nodup_aux _ _).1, ?_⟩
    intro a ha hb
    exact (dedupByName_nodup_aux (filterCandidates ps) (cur.map pathName)).2 a hb ha
  · intro n
    exact dedupByName_find (filterCandidates ps) [] n (by simp)
  · unfold uploadAdd
    exact List.take_left cur _
  · intro p hp
    unfold uploadAdd at hp
    rcases List.mem_append.mp hp with h1 | h2
    · exact Or.inl h1
    · obtain ⟨hmem, hname⟩ := dedupByName_mem _ _ p h2
      exact Or.inr ⟨hmem, hname⟩

theorem c7_filename_dedup_witness :
    ((([["r", "a.py"]] : List PyPath).map pathName).Nodup) ∧
    ((uploadReplace [["x", "b.py"], ["y", "b.py"]]).map pathName).Nodup ∧
    ((uploadAdd [["r", "a.py"]] [["x", "b.py"], ["y", "a.py"]]).map pathName).Nodup ∧
    (uploadReplace [["x", "b.py"], ["y", "b.py"]]).find? (fun q => pathName q == "b.py")
      = (filterCandidates [["x", "b.py"], ["y", "b.py"]]).find? (fun q => pathName q == "b.py") :=
  ⟨by decide,
   (c7_filename_dedup [] [["x", "b.py"], ["y", "b.py"]] (by decide)).1,
   (c7_filename_dedup [["r", "a.py"]] [["x", "b.py"], ["y", "a.py"]] (by decide)).2.1,
   (c7_filename_dedup [] [["x", "b.py"], ["y", "b.py"]] (by decide)).2.2.1 "b.py"⟩

/-! The move-checked-to-top operation. -/

theorem filter_not_of_filter_nil {l : List (PyPath × Bool)}
    (h : l.filter (fun e => e.2) = []) : l.filter (fun e => !e.2) = l := by
  refine List.filter_eq_self.mpr ?_
  intro a ha
  have h2 := List.filter_eq_nil_iff.mp h a ha
  simpa using h2

theorem moveCheckedToHead_eq (l : List (PyPath × Bool)) :
    moveCheckedToHead l = l.filter (fun e => e.2) ++ l.filter (fun e => !e.2) := by
  simp only [moveCheckedToHead]
  by_cases h : l.filter (fun e => e.2) = []
  · rw [if_pos h, h, List.nil_append, filter_not_of_filter_nil h]
  · rw [if_neg h]

/-- C8: move-checked-to-top is a stable partition of the ordered list
(checked entries then unchecked entries, each subsequence in original
relative order, and the result is a permutation of the input), applying
it twice equals applying it once, and when no entry is checked the list
is left unchanged. -/
theorem c8_move_checked_stable (l : List (PyPath × Bool)) :
    moveCheckedToHead l = l.filter (fun e => e.2) ++ l.filter (fun e => !e.2) ∧
    (moveCheckedToHead l).Perm l ∧
    moveCheckedToHead (moveCheckedToHead l) = moveCheckedToHead l ∧
    (l.filter (fun e => e.2) = [] → moveCheckedToHead l = l) := by
  refine ⟨moveCheckedToHead_eq l, ?_, ?_, ?_⟩
  · rw [moveCheckedToHead_eq]
    exact List.filter_append_perm _ l
  · have hA : (l.filter (fun e => e.2)).filter (fun e => e.2) = l.filter (fun e => e.2) :=
      List.filter_eq_self.mpr (fun a ha => (List.mem_filter.mp ha).2)
    have hB : (l.filter (fun e => !e.2)).filter (fun e => e.2) = [] :=
      List.filter_eq_nil_iff.mpr (fun a ha => by
        have h2 := (List.mem_filter.mp ha).2
        simp only [Bool.not_eq_true'] at h2
        simp [h2])
    have hA2 : (l.filter (fun e => e.2)).filter (fun e => !e.2) = [] :=
      List.filter_eq_nil_iff.mpr (fun a ha => by
        have h2 := (List.mem_filter.mp ha).2
        simp [h2])
    have hB2 : (l.filter (fun e => !e.2)).filter (fun e => !e.2) = l.filter (fun e => !e.2) :=
      List.filter_eq_self.mpr (fun a ha => (List.mem_filter.mp ha).2)
    rw [moveCheckedToHead_eq, moveCheckedToHead_eq l, List.filter_append, List.filter_append,
      hA, hB, hA2, hB2, List.append_nil, List.nil_append]
  · intro h
    simp only [moveCheckedToHead]
    rw [if_pos h]

theorem c8_move_checked_stable_witness :
    moveCheckedToHead [(["a.py"], false), (["b.py"], true)]
      = ([(["a.py"], false), (["b.py"], true)] : List (PyPath × Bool)).filter (fun e => e.2)
        ++ ([(["a.py"], false), (["b.py"], true)] : List (PyPath × Bool)).filter
            (fun e => !e.2) ∧
    ([(["a.py"], false)] : List (PyPath × Bool)).filter (fun e => e.2) = [] ∧
    moveCheckedToHead [(["a.py"], false)] = [(["a.py"], false)] :=
  ⟨(c8_move_checked_stable _).1, by decide,
   (c8_move_checked_stable [(["a.py"], false)]).2.2.2 (by decide)⟩

/-! Trailing-newline behaviour in the keep-existing-identifier paste
case. -/

theorem c9_trailing_newline_counterexample :
    contentToWrite ("# foo.py".toList) ("print(1)\n\n".toList)
        (some ("# foo.py\nold\n".toList))
      = some ("# foo.py\nprint(1)\n".toList) ∧
    ("# foo.py\nprint(1)\n".toList).getLast? = some '\n' := by
  decide

/-- C9 (amended): in the keep-existing-identifier paste case the written
content is the identifier, a newline, and the clipboard text with a
single trailing newline (when present) removed; it therefore ends with a
newline exactly when the clipboard ended with two or more, while the
other cases preserve the clipboard verbatim. -/
theorem c9_trailing_newline_amended (expected clip ex : Text)
    (h1 : clip ≠ []) (h2 : pyStrip (firstLine clip) ≠ expected)
    (h3 : ex ≠ []) (h4 : pyStrip (firstLine ex) = expected) :
    contentToWrite expected clip (some ex) = some (expected ++ '\n' :: stripLastNl clip) := by
  rw [contentToWrite_eq_spec expected clip (some ex) h1]
  unfold reconcileSpec
  rw [if_neg h2]
  dsimp only
  rw [if_pos (show ex ≠ [] ∧ pyStrip (firstLine ex) = expected from ⟨h3, h4⟩)]
  rw [joinNl_pySplitlines]

theorem c9_trailing_newline_amended_witness :
    ("body\n".toList ≠ ([] : Text)) ∧
    pyStrip (firstLine ("body\n".toList)) ≠ "# g.py".toList ∧
    ("# g.py\nold\n".toList ≠ ([] : Text)) ∧
    pyStrip (firstLine ("# g.py\nold\n".toList)) = "# g.py".toList ∧
    contentToWrite ("# g.py".toList) ("body\n".toList) (some ("# g.py\nold\n".toList))
      = some ("# g.py".toList ++ '\n' :: stripLastNl ("body\n".toList)) :=
  ⟨by decide, by decide, by decide, by decide,
    c9_trailing_newline_amended _ _ _ (by decide) (by decide) (by decide) (by decide)⟩

/-! Revert pops the snapshot before attempting the write. -/

/-- C10: revert removes the most recent snapshot from the history before
attempting the disk write: on a failed write the file is unmodified, no
restored content is reported, the popped snapshot is lost, and the next
revert returns the next-older snapshot (or absent when none remains). -/
theorem c10_revert_pops_before_write (st : FState) (v : Text)
    (h : st.history.getLast? = some v) :
    (revertOp st false).1.history = st.history.dropLast ∧
    (revertOp st false).1.disk = st.disk ∧
    (revertOp st false).2 = none ∧
    (revertOp (revertOp st false).1 true).2 = st.history.dropLast.getLast? := by
  have hstep : revertOp st false = (⟨st.history.dropLast, st.disk⟩, none) := by
    unfold revertOp
    rw [h]
    simp
  refine ⟨by rw [hstep], by rw [hstep], by rw [hstep], ?_⟩
  rw [hstep]
  unfold revertOp
  dsimp only
  cases hl : st.history.dropLast.getLast? with
  | none => simp
  | some w => simp

theorem c10_revert_pops_before_write_witness :
    ((⟨["a".toList, "b".toList], some ("x".toList)⟩ : FState).history.getLast?
        = some ("b".toList)) ∧
    (revertOp ⟨["a".toList, "b".toList], some ("x".toList)⟩ false).1.history
      = (["a".toList, "b".toList] : List Text).dropLast ∧
    (revertOp (revertOp ⟨["a".toList, "b".toList], some ("x".toList)⟩ false).1 true).2
      = (["a".toList, "b".toList] : List Text).dropLast.getLast? :=
  ⟨by decide,
   (c10_revert_pops_before_write _ ("b".toList) (by decide)).1,
   (c10_revert_pops_before_write _ ("b".toList) (by decide)).2.2.2⟩

end CodeCombiner
